import Mathlib

/-!
Verification of the chessEval position-correctness pipeline.

JavaScript strings are embedded as `List Char` (the character sequence).
`String.prototype.split(sep)` with a one-character separator is `splitC`,
`Array.prototype.join(sep)` is `joinC`.  The post-processing stages
(completion, orientation heuristic, rotation, castling inference) are
translated from `src/app.js` and `netlify/functions/board-to-fen.js`.
The bleed-removal filter's per-pixel arithmetic is embedded over `ℚ`.
-/

namespace ChessEval

/-- JS `s.split(sep)` for a single-character separator: splits at every
occurrence of `sep`, keeping empty fields. -/
def splitC (sep : Char) : List Char → List (List Char)
  | [] => [[]]
  | c :: cs =>
    match splitC sep cs with
    | [] => [[c]]
    | f :: rest => if c = sep then [] :: f :: rest else (c :: f) :: rest

/-- JS `parts.join(sep)` for a single-character separator. -/
def joinC (sep : Char) : List (List Char) → List Char
  | [] => []
  | [p] => p
  | p :: ps => p ++ sep :: joinC sep ps

theorem splitC_ne_nil (sep : Char) (l : List Char) : splitC sep l ≠ [] := by
  cases l with
  | nil => simp [splitC]
  | cons c cs =>
    simp only [splitC]
    cases splitC sep cs with
    | nil => simp
    | cons f rest =>
      by_cases h : c = sep <;> simp [h]

theorem splitC_append (sep : Char) (l t : List Char) :
    splitC sep (l ++ sep :: t) = splitC sep l ++ splitC sep t := by
  induction l with
  | nil =>
    simp only [List.nil_append, splitC]
    cases h : splitC sep t with
    | nil => exact absurd h (splitC_ne_nil sep t)
    | cons f rest => simp
  | cons c cs ih =>
    cases h : splitC sep cs with
    | nil => exact absurd h (splitC_ne_nil sep cs)
    | cons f rest =>
      by_cases hc : c = sep <;>
        simp [splitC, ih, h, hc]

theorem splitC_of_not_mem {sep : Char} {l : List Char} (h : sep ∉ l) :
    splitC sep l = [l] := by
  induction l with
  | nil => rfl
  | cons c cs ih =>
    simp only [List.mem_cons, not_or] at h
    simp only [splitC, ih h.2]
    simp [Ne.symm h.1]

theorem not_mem_of_mem_splitC {sep : Char} {l : List Char} {p : List Char}
    (hp : p ∈ splitC sep l) : sep ∉ p := by
  induction l generalizing p with
  | nil =>
    simp only [splitC, List.mem_singleton] at hp
    subst hp; simp
  | cons c cs ih =>
    simp only [splitC] at hp
    cases h : splitC sep cs with
    | nil => exact absurd h (splitC_ne_nil sep cs)
    | cons f rest =>
      rw [h] at hp
      by_cases hc : c = sep <;> simp only [hc, if_true, if_false, reduceIte] at hp
      · rcases List.mem_cons.mp hp with h1 | h2
        · subst h1; simp
        · exact ih (h ▸ h2)
      · rcases List.mem_cons.mp hp with h1 | h2
        · subst h1
          intro hmem
          rcases List.mem_cons.mp hmem with h3 | h4
          · exact hc h3.symm
          · exact ih (h ▸ List.mem_cons_self f rest) h4
        · exact ih (h ▸ List.mem_cons_of_mem f h2)

theorem mem_of_mem_splitC {sep : Char} {l p : List Char} {c : Char}
    (hp : p ∈ splitC sep l) (hc : c ∈ p) : c ∈ l := by
  induction l generalizing p with
  | nil =>
    simp only [splitC, List.mem_singleton] at hp
    subst hp; exact absurd hc (List.not_mem_nil c)
  | cons a as ih =>
    simp only [splitC] at hp
    cases h : splitC sep as with
    | nil => exact absurd h (splitC_ne_nil sep as)
    | cons f rest =>
      rw [h] at hp
      by_cases ha : a = sep <;> simp only [ha, if_true, if_false, reduceIte] at hp
      · rcases List.mem_cons.mp hp with h1 | h2
        · subst h1; exact absurd hc (List.not_mem_nil c)
        · exact List.mem_cons_of_mem _ (ih (h ▸ h2) hc)
      · rcases List.mem_cons.mp hp with h1 | h2
        · subst h1
          rcases List.mem_cons.mp hc with h3 | h4
          · exact h3 ▸ List.mem_cons_self a as
          · exact List.mem_cons_of_mem _ (ih (h ▸ List.mem_cons_self f rest) h4)
        · exact List.mem_cons_of_mem _ (ih (h ▸ List.mem_cons_of_mem f h2) hc)

theorem splitC_joinC (sep : Char) (parts : List (List Char)) (hne : parts ≠ [])
    (h : ∀ p ∈ parts, sep ∉ p) : splitC sep (joinC sep parts) = parts := by
  induction parts with
  | nil => exact absurd rfl hne
  | cons p ps ih =>
    cases ps with
    | nil =>
      simp only [joinC]
      exact splitC_of_not_mem (h p (List.mem_cons_self p []))
    | cons q qs =>
      have hj : joinC sep (p :: q :: qs) = p ++ sep :: joinC sep (q :: qs) := rfl
      rw [hj, splitC_append, splitC_of_not_mem (h p (List.mem_cons_self p _)),
        ih (by simp) (fun r hr => h r (List.mem_cons_of_mem p hr))]
      rfl

theorem mem_joinC {sep : Char} {parts : List (List Char)} {c : Char}
    (hc : c ∈ joinC sep parts) : c = sep ∨ ∃ p ∈ parts, c ∈ p := by
  induction parts with
  | nil => exact absurd hc (List.not_mem_nil c)
  | cons p ps ih =>
    cases ps with
    | nil =>
      simp only [joinC] at hc
      exact Or.inr ⟨p, List.mem_cons_self p [], hc⟩
    | cons q qs =>
      have hj : joinC sep (p :: q :: qs) = p ++ sep :: joinC sep (q :: qs) := rfl
      rw [hj] at hc
      rcases List.mem_append.mp hc with h1 | h2
      · exact Or.inr ⟨p, List.mem_cons_self p _, h1⟩
      · rcases List.mem_cons.mp h2 with h3 | h4
        · exact Or.inl h3
        · rcases ih h4 with h5 | ⟨r, hr, hcr⟩
          · exact Or.inl h5
          · exact Or.inr ⟨r, List.mem_cons_of_mem p hr, hcr⟩

/-! ## Post-processing pipeline (from `src/app.js` and `netlify/functions/board-to-fen.js`) -/

/-- Completion stage (`app.js` line 333 and `board-to-fen.js` line 39):
`if (fen.split(' ').length < 6) fen += ' w - - 0 1';`. -/
def completeFen (fen : List Char) : List Char :=
  if (splitC ' ' fen).length < 6 then fen ++ " w - - 0 1".data else fen

/-- `board-to-fen.js` line 45: `s.replace(/\d/g, (d) => '1'.repeat(parseInt(d, 10)))`. -/
def expandRank (r : List Char) : List Char :=
  r.flatMap fun c => if c.isDigit then List.replicate (c.toNat - '0'.toNat) '1' else [c]

/-- `board-to-fen.js` lines 49-57: accumulate the castling string from the two
expanded back ranks (`r1` is white's back rank, `r8` black's). -/
def castlingOf (r1 r8 : List Char) : List Char :=
  (if r1[4]? = some 'K' then
    (if r1[7]? = some 'R' then ['K'] else []) ++
    (if r1[0]? = some 'R' then ['Q'] else [])
   else []) ++
  (if r8[4]? = some 'k' then
    (if r8[7]? = some 'r' then ['k'] else []) ++
    (if r8[0]? = some 'r' then ['q'] else [])
   else [])

/-- The value stored into field 2 (`board-to-fen.js` line 58: `castling || '-'`). -/
def castField (fen : List Char) : List Char :=
  let parts := splitC ' ' fen
  let ranks := splitC '/' (parts.headD [])
  let r8 := expandRank (ranks.getD 0 [])
  let r1 := expandRank (ranks.getD 7 [])
  let c := castlingOf r1 r8
  if c = [] then ['-'] else c

/-- Castling-rights inference stage (`board-to-fen.js` lines 43-59):
`fenParts[2] = castling || '-'; fen = fenParts.join(' ');`. -/
def inferCastling (fen : List Char) : List Char :=
  joinC ' ' ((splitC ' ' fen).set 2 (castField fen))

/-- `app.js` line 303: `fen.split(' ')[0].split('/')`. -/
def rowsOf (fen : List Char) : List (List Char) :=
  splitC '/' ((splitC ' ' fen).headD [])

/-- `app.js` line 304: `rows.findIndex(r => r.includes('K'))` (as an `Option`). -/
def wkRow (fen : List Char) : Option Nat :=
  (rowsOf fen).findIdx? fun r => r.contains 'K'

/-- `app.js` line 305: `rows.findIndex(r => r.includes('k'))` (as an `Option`). -/
def bkRow (fen : List Char) : Option Nat :=
  (rowsOf fen).findIdx? fun r => r.contains 'k'

/-- The king score of `app.js` lines 310-312: each located king contributes its
term, a missing king contributes zero. -/
def orientScore (fen : List Char) : ℚ :=
  (match wkRow fen with
   | some w => 7/2 - (w : ℚ)
   | none => 0) +
  (match bkRow fen with
   | some b => (b : ℚ) - 7/2
   | none => 0)

/-- Number of matches of `/[A-Z]/g` (`app.js` line 318-320). -/
def countUpper (l : List Char) : Nat := (l.filter Char.isUpper).length

/-- Number of matches of `/[a-z]/g` (`app.js` line 318-320). -/
def countLower (l : List Char) : Nat := (l.filter Char.isLower).length

/-- Piece-distribution fallback (`app.js` lines 316-322), with the JS
`x || 1` zero-denominator guard. -/
def fallbackFlipped (fen : List Char) : Bool :=
  let rows := rowsOf fen
  let top := (rows.take 4).flatten
  let bottom := (rows.drop 4).flatten
  let wTop := countUpper top
  let bTop := countLower top
  let wBot := countUpper bottom
  let bBot := countLower bottom
  decide ((wTop : ℚ) / (if wTop + bTop = 0 then 1 else ((wTop + bTop : Nat) : ℚ)) > 13/20) &&
  decide ((bBot : ℚ) / (if wBot + bBot = 0 then 1 else ((wBot + bBot : Nat) : ℚ)) > 13/20)

/-- The flip decision of `detectOrientation` (`app.js` lines 302-324). -/
def detectFlipped (fen : List Char) : Bool :=
  if (wkRow fen).isSome || (bkRow fen).isSome then
    decide (orientScore fen > 3/2)
  else
    fallbackFlipped fen

/-- Modelled from the spec: `rotateFen` is imported from `src/utils/fen.js`,
a repository file not among the provided sources.  Spec §4.4: reverse the
order of the 8 placement rows and reverse the square order within each row
(a 180° rotation of the grid); the rotation is a pure geometric transform on
the placement, the remaining fields are untouched. -/
def rotateFen (fen : List Char) : List Char :=
  let parts := splitC ' ' fen
  let rows := splitC '/' (parts.headD [])
  let rot := (rows.map List.reverse).reverse
  joinC ' ' (parts.set 0 (joinC '/' rot))

/-- `app.js` line 326: `return isFlipped ? rotateFen(fen) : fen;`. -/
def detectOrientation (fen : List Char) : List Char :=
  if detectFlipped fen then rotateFen fen else fen

/-- The FEN returned by the serverless `handler` after the OCR call
(`board-to-fen.js` lines 38-59): completion, then castling inference. -/
def serverFen (raw : List Char) : List Char :=
  inferCastling (completeFen raw)

/-- The final position string loaded on the client
(`app.js` lines 372-375 and 331-333): `detectOrientation` applied to the
server's FEN, then `loadPosition`'s own completion guard. -/
def pipelineFinal (raw : List Char) : List Char :=
  completeFen (detectOrientation (serverFen raw))

/-- Modelled from the spec: the stage order the spec asserts (§2),
Completion → Orientation Heuristic → Rotation Transform → Castling
Inference, for comparison with `pipelineFinal`. -/
def specOrderPipeline (raw : List Char) : List Char :=
  inferCastling (detectOrientation (completeFen raw))

/-! ## Bleed-removal filter (from `removeBleeding` in `src/app.js`) -/

/-- `app.js` lines 514-515: the normalize + blend step for one pixel,
`blendFactor = 0.5`; the clamp `Math.min(255, Math.max(0, ·))` is applied to
the blended value. -/
def normBlend (gray bg : ℚ) : ℚ :=
  min 255 (max 0 ((((gray + 1) / (bg + 1)) * 255) * (1/2) + gray * (1 - 1/2)))

/-- The per-pixel formula as the spec words it (§4.2 steps 3-4): the
normalized value is clamped to [0,255] first and then blended. -/
def specNormBlend (gray bg : ℚ) : ℚ :=
  (1/2) * min 255 (max 0 (((gray + 1) / (bg + 1)) * 255)) + (1/2) * gray

/-- `app.js` line 504: grayscale of pixel `i` of the RGBA array. -/
def grayAt (data : Nat → ℚ) (i : Nat) : ℚ :=
  299/1000 * data (4*i) + 587/1000 * data (4*i + 1) + 114/1000 * data (4*i + 2)

/-- JS `Math.round`. -/
def jsRound (q : ℚ) : ℤ := ⌊q + 1/2⌋

/-- Storing an integer into a `Uint8ClampedArray` cell. -/
def clamp255 (z : ℤ) : ℤ := min 255 (max 0 z)

/-- `removeBleeding` (`app.js` lines 498-526) with the two Gaussian blurs
abstracted as parameters (`blurA` is the σ=25 background estimate, `blurB`
the σ=2 denoise): grayscale, background, normalize+blend, denoise, then
re-expansion into RGBA with full opacity. -/
def removeBleedingOut (blurA blurB : (Nat → ℚ) → Nat → ℚ) (data : Nat → ℚ) : Nat → ℤ :=
  let gray := grayAt data
  let bg := blurA gray
  let norm := fun i => normBlend (gray i) (bg i)
  let denoised := blurB norm
  fun j => if j % 4 = 3 then 255 else clamp255 (jsRound (denoised (j / 4)))

/-- Modelled from the spec: the Rotation Transform on a placement grid
(§4.4) — reverse the row order and the square order within each row. -/
def rotatePlacement {α : Type} (p : List (List α)) : List (List α) :=
  (p.map List.reverse).reverse

/-! ## Structural lemmas about the pipeline stages -/

theorem one_le_splitC_length (sep : Char) (l : List Char) :
    1 ≤ (splitC sep l).length := by
  cases h : splitC sep l with
  | nil => exact absurd h (splitC_ne_nil sep l)
  | cons f rest => simp

theorem completeFen_fields (l : List Char) :
    6 ≤ (splitC ' ' (completeFen l)).length := by
  unfold completeFen
  by_cases h : (splitC ' ' l).length < 6
  · rw [if_pos h]
    have hd : " w - - 0 1".data = ' ' :: "w - - 0 1".data := rfl
    rw [hd, splitC_append, List.length_append]
    have h5 : (splitC ' ' "w - - 0 1".data).length = 5 := by decide
    have h1 := one_le_splitC_length ' ' l
    omega
  · rw [if_neg h]
    omega

theorem completeFen_of_ge {l : List Char} (h : 6 ≤ (splitC ' ' l).length) :
    completeFen l = l := by
  unfold completeFen
  rw [if_neg (by omega)]

theorem mem_castlingOf {r1 r8 : List Char} {c : Char} (hc : c ∈ castlingOf r1 r8) :
    c = 'K' ∨ c = 'Q' ∨ c = 'k' ∨ c = 'q' := by
  unfold castlingOf at hc
  split_ifs at hc <;> simp_all <;> tauto

theorem space_not_mem_castField (fen : List Char) : ' ' ∉ castField fen := by
  unfold castField
  intro hc
  dsimp only at hc
  split_ifs at hc with h
  · simp at hc
  · rcases mem_castlingOf hc with h | h | h | h <;> simp at h

theorem splitC_inferCastling (fen : List Char) :
    splitC ' ' (inferCastling fen) = (splitC ' ' fen).set 2 (castField fen) := by
  unfold inferCastling
  apply splitC_joinC
  · intro h
    have h1 := one_le_splitC_length ' ' fen
    have h2 := congrArg List.length h
    rw [List.length_set] at h2
    simp only [List.length_nil] at h2
    omega
  · intro p hp
    rcases List.mem_or_eq_of_mem_set hp with h | h
    · exact not_mem_of_mem_splitC h
    · exact h ▸ space_not_mem_castField fen

theorem space_not_mem_head_splitC {fen p : List Char}
    (hp : p ∈ splitC '/' ((splitC ' ' fen).headD [])) : ' ' ∉ p := by
  intro hc
  have hmem : ' ' ∈ (splitC ' ' fen).headD [] := mem_of_mem_splitC hp hc
  cases h : splitC ' ' fen with
  | nil => exact absurd h (splitC_ne_nil ' ' fen)
  | cons f rest =>
    rw [h] at hmem
    simp only [List.headD_cons] at hmem
    exact not_mem_of_mem_splitC (h ▸ List.mem_cons_self f rest) hmem

theorem splitC_rotateFen (fen : List Char) :
    splitC ' ' (rotateFen fen) =
      (splitC ' ' fen).set 0
        (joinC '/' (((splitC '/' ((splitC ' ' fen).headD [])).map List.reverse).reverse)) := by
  unfold rotateFen
  apply splitC_joinC
  · intro h
    have h1 := one_le_splitC_length ' ' fen
    have h2 := congrArg List.length h
    rw [List.length_set] at h2
    simp only [List.length_nil] at h2
    omega
  · intro p hp
    rcases List.mem_or_eq_of_mem_set hp with h | h
    · exact not_mem_of_mem_splitC h
    · subst h
      intro hc
      rcases mem_joinC hc with h1 | ⟨q, hq, hcq⟩
      · simp at h1
      · rw [List.mem_reverse, List.mem_map] at hq
        obtain ⟨r, hr, hqr⟩ := hq
        subst hqr
        rw [List.mem_reverse] at hcq
        exact space_not_mem_head_splitC hr hcq

theorem detectOrientation_fields (fen : List Char) :
    (splitC ' ' (detectOrientation fen)).length = (splitC ' ' fen).length := by
  unfold detectOrientation
  split
  · rw [splitC_rotateFen, List.length_set]
  · rfl

theorem orientScore_eq {fen : List Char} {w b : Nat} (hw : wkRow fen = some w)
    (hb : bkRow fen = some b) :
    orientScore fen = (7/2 - (w : ℚ)) + ((b : ℚ) - 7/2) := by
  unfold orientScore
  rw [hw, hb]

theorem detectFlipped_primary {fen : List Char}
    (h : ((wkRow fen).isSome || (bkRow fen).isSome) = true) :
    detectFlipped fen = decide (orientScore fen > 3/2) := by
  unfold detectFlipped
  rw [if_pos h]

theorem detectFlipped_fallback {fen : List Char}
    (hw : wkRow fen = none) (hb : bkRow fen = none) :
    detectFlipped fen = fallbackFlipped fen := by
  unfold detectFlipped
  rw [if_neg]
  rw [hw, hb]
  simp

/-! ## The claims -/

/-- What castling inference writes into the castling field, related to the
expanded back ranks: each right is granted exactly for king-on-e-file plus
own rook on the h-file (kingside) or a-file (queenside), per color. -/
def CastlingSpec (fen : List Char) : Prop :=
  let ranks := splitC '/' ((splitC ' ' fen).headD [])
  let r8 := expandRank (ranks.getD 0 [])
  let r1 := expandRank (ranks.getD 7 [])
  let c := (splitC ' ' (inferCastling fen)).getD 2 []
  ('K' ∈ c ↔ r1[4]? = some 'K' ∧ r1[7]? = some 'R') ∧
  ('Q' ∈ c ↔ r1[4]? = some 'K' ∧ r1[0]? = some 'R') ∧
  ('k' ∈ c ↔ r8[4]? = some 'k' ∧ r8[7]? = some 'r') ∧
  ('q' ∈ c ↔ r8[4]? = some 'k' ∧ r8[0]? = some 'r') ∧
  c ≠ [] ∧
  (castlingOf r1 r8 = [] → c = ['-'])

/-- C2: for every 6-field descriptor with 8 well-formed ranks, castling
inference grants each right exactly under the king/rook placement rule,
treats the colors independently, never fails, and writes `-` when no
right qualifies. -/
theorem castling_inference_rule (fen : List Char)
    (h6 : (splitC ' ' fen).length = 6)
    (h8 : (splitC '/' ((splitC ' ' fen).headD [])).length = 8)
    (hr1 : (expandRank ((splitC '/' ((splitC ' ' fen).headD [])).getD 7 [])).length = 8)
    (hr8 : (expandRank ((splitC '/' ((splitC ' ' fen).headD [])).getD 0 [])).length = 8) :
    CastlingSpec fen := by
  have hc : (splitC ' ' (inferCastling fen)).getD 2 [] = castField fen := by
    rw [splitC_inferCastling, List.getD_eq_getElem?_getD,
      List.getElem?_set_eq_of_lt _ (by omega)]
    rfl
  unfold CastlingSpec
  dsimp only
  rw [hc]
  unfold castField castlingOf
  dsimp only
  split_ifs <;> simp_all

/-- C10: the castling-inference stage rewrites only field 2 (the castling
field) of a 6-field descriptor; the other five fields are unchanged. -/
theorem castling_frame (fen : List Char)
    (h6 : (splitC ' ' fen).length = 6)
    (h8 : (splitC '/' ((splitC ' ' fen).headD [])).length = 8) :
    (splitC ' ' (inferCastling fen)).length = 6 ∧
    (splitC ' ' (inferCastling fen))[0]? = (splitC ' ' fen)[0]? ∧
    (splitC ' ' (inferCastling fen))[1]? = (splitC ' ' fen)[1]? ∧
    (splitC ' ' (inferCastling fen))[3]? = (splitC ' ' fen)[3]? ∧
    (splitC ' ' (inferCastling fen))[4]? = (splitC ' ' fen)[4]? ∧
    (splitC ' ' (inferCastling fen))[5]? = (splitC ' ' fen)[5]? := by
  rw [splitC_inferCastling]
  refine ⟨by rw [List.length_set, h6], ?_, ?_, ?_, ?_, ?_⟩ <;>
    exact List.getElem?_set_ne (by decide)

/-- C10 witness: the frame property at a concrete 6-field descriptor. -/
theorem castling_frame_witness :
    ((splitC ' ' ("r3k2r/8/8/8/8/8/8/R3K2R w - e3 4 19".data)).length = 6 ∧
     (splitC '/' ((splitC ' ' ("r3k2r/8/8/8/8/8/8/R3K2R w - e3 4 19".data)).headD [])).length = 8) ∧
    ((splitC ' ' (inferCastling ("r3k2r/8/8/8/8/8/8/R3K2R w - e3 4 19".data))).length = 6 ∧
     (splitC ' ' (inferCastling ("r3k2r/8/8/8/8/8/8/R3K2R w - e3 4 19".data)))[0]? =
       (splitC ' ' ("r3k2r/8/8/8/8/8/8/R3K2R w - e3 4 19".data))[0]? ∧
     (splitC ' ' (inferCastling ("r3k2r/8/8/8/8/8/8/R3K2R w - e3 4 19".data)))[1]? =
       (splitC ' ' ("r3k2r/8/8/8/8/8/8/R3K2R w - e3 4 19".data))[1]? ∧
     (splitC ' ' (inferCastling ("r3k2r/8/8/8/8/8/8/R3K2R w - e3 4 19".data)))[3]? =
       (splitC ' ' ("r3k2r/8/8/8/8/8/8/R3K2R w - e3 4 19".data))[3]? ∧
     (splitC ' ' (inferCastling ("r3k2r/8/8/8/8/8/8/R3K2R w - e3 4 19".data)))[4]? =
       (splitC ' ' ("r3k2r/8/8/8/8/8/8/R3K2R w - e3 4 19".data))[4]? ∧
     (splitC ' ' (inferCastling ("r3k2r/8/8/8/8/8/8/R3K2R w - e3 4 19".data)))[5]? =
       (splitC ' ' ("r3k2r/8/8/8/8/8/8/R3K2R w - e3 4 19".data))[5]?) :=
  ⟨⟨by decide, by decide⟩,
   castling_frame ("r3k2r/8/8/8/8/8/8/R3K2R w - e3 4 19".data) (by decide) (by decide)⟩

/-- C2 witness: the castling rule at the concrete descriptor
`r3k2r/8/8/8/8/8/8/R3K2R w - - 0 1` (both colors fully qualified). -/
theorem castling_inference_rule_witness :
    ((splitC ' ' ("r3k2r/8/8/8/8/8/8/R3K2R w - - 0 1".data)).length = 6 ∧
     (splitC '/' ((splitC ' ' ("r3k2r/8/8/8/8/8/8/R3K2R w - - 0 1".data)).headD [])).length = 8 ∧
     (expandRank ((splitC '/' ((splitC ' ' ("r3k2r/8/8/8/8/8/8/R3K2R w - - 0 1".data)).headD [])).getD 7 [])).length = 8 ∧
     (expandRank ((splitC '/' ((splitC ' ' ("r3k2r/8/8/8/8/8/8/R3K2R w - - 0 1".data)).headD [])).getD 0 [])).length = 8) ∧
    CastlingSpec ("r3k2r/8/8/8/8/8/8/R3K2R w - - 0 1".data) :=
  ⟨⟨by decide, by decide, by decide, by decide⟩,
   castling_inference_rule ("r3k2r/8/8/8/8/8/8/R3K2R w - - 0 1".data)
     (by decide) (by decide) (by decide) (by decide)⟩

/-- C3: the completion stage violates its own "Ensure FEN has all 6 fields"
contract on a 4-field input — the full 5-field default suffix is appended
blindly, yielding a 9-field string instead of a 6-field one. -/
theorem completion_four_fields_bug :
    completeFen ("8/8/8/8/8/8/8/8 w - -".data) =
      ("8/8/8/8/8/8/8/8 w - - w - - 0 1".data) ∧
    (splitC ' ' (completeFen ("8/8/8/8/8/8/8/8 w - -".data))).length = 9 ∧
    completeFen ("8/8/8/8/8/8/8/8".data) = ("8/8/8/8/8/8/8/8 w - - 0 1".data) ∧
    (splitC ' ' (completeFen ("8/8/8/8/8/8/8/8".data))).length = 6 :=
  ⟨by decide, by decide, by decide, by decide⟩

/-- C4 counterexample: on the flipped placement `R2K3R/8/8/8/8/8/8/r2k3r`
the code's pipeline (completion, castling inference on the server, then
orientation on the client) infers no castling rights, while the claimed
order (castling inference after orientation correction) infers `KQkq`. -/
theorem pipeline_stage_order_cex :
    pipelineFinal ("R2K3R/8/8/8/8/8/8/r2k3r".data) =
      ("r3k2r/8/8/8/8/8/8/R3K2R w - - 0 1".data) ∧
    specOrderPipeline ("R2K3R/8/8/8/8/8/8/r2k3r".data) =
      ("r3k2r/8/8/8/8/8/8/R3K2R w KQkq - 0 1".data) ∧
    pipelineFinal ("R2K3R/8/8/8/8/8/8/r2k3r".data) ≠
      specOrderPipeline ("R2K3R/8/8/8/8/8/8/r2k3r".data) := by
  have hC : completeFen ("R2K3R/8/8/8/8/8/8/r2k3r".data) =
      ("R2K3R/8/8/8/8/8/8/r2k3r w - - 0 1".data) := by decide
  have hS : inferCastling ("R2K3R/8/8/8/8/8/8/r2k3r w - - 0 1".data) =
      ("R2K3R/8/8/8/8/8/8/r2k3r w - - 0 1".data) := by decide
  have hw : wkRow ("R2K3R/8/8/8/8/8/8/r2k3r w - - 0 1".data) = some 0 := by decide
  have hb : bkRow ("R2K3R/8/8/8/8/8/8/r2k3r w - - 0 1".data) = some 7 := by decide
  have hflip : detectFlipped ("R2K3R/8/8/8/8/8/8/r2k3r w - - 0 1".data) = true := by
    rw [detectFlipped_primary (by rw [hw]; rfl), orientScore_eq hw hb]
    norm_num
  have hdet : detectOrientation ("R2K3R/8/8/8/8/8/8/r2k3r w - - 0 1".data) =
      ("r3k2r/8/8/8/8/8/8/R3K2R w - - 0 1".data) := by
    unfold detectOrientation
    rw [hflip]
    exact (by decide : rotateFen ("R2K3R/8/8/8/8/8/8/r2k3r w - - 0 1".data) =
      ("r3k2r/8/8/8/8/8/8/R3K2R w - - 0 1".data))
  have h1 : pipelineFinal ("R2K3R/8/8/8/8/8/8/r2k3r".data) =
      ("r3k2r/8/8/8/8/8/8/R3K2R w - - 0 1".data) := by
    unfold pipelineFinal serverFen
    rw [hC, hS, hdet]
    decide
  have h2 : specOrderPipeline ("R2K3R/8/8/8/8/8/8/r2k3r".data) =
      ("r3k2r/8/8/8/8/8/8/R3K2R w KQkq - 0 1".data) := by
    unfold specOrderPipeline
    rw [hC, hdet]
    decide
  refine ⟨h1, h2, ?_⟩
  rw [h1, h2]
  decide

/-- C4 (amended): the code's stage order is Completion, then Castling-Rights
Inference (serverless function), then Orientation Heuristic + Rotation
Transform (client); the final loaded string equals the orientation stage
applied to the castling-inference result of the completed string (the
client's second completion guard is a no-op). -/
theorem pipeline_stage_order_amended (raw : List Char) :
    pipelineFinal raw = detectOrientation (inferCastling (completeFen raw)) := by
  unfold pipelineFinal serverFen
  apply completeFen_of_ge
  rw [detectOrientation_fields, splitC_inferCastling, List.length_set]
  exact completeFen_fields raw

/-- C9 counterexample: on the completed end-to-end scenario string the
orientation heuristic finds the White king at row 7 (not row 6) and the
king score is −2.0 (not 0.0). -/
theorem end_to_end_rows_cex :
    wkRow ("8/8/8/8/8/2k5/2P5/2K5 w - - 0 1".data) = some 7 ∧
    wkRow ("8/8/8/8/8/2k5/2P5/2K5 w - - 0 1".data) ≠ some 6 ∧
    orientScore ("8/8/8/8/8/2k5/2P5/2K5 w - - 0 1".data) = -2 ∧
    orientScore ("8/8/8/8/8/2k5/2P5/2K5 w - - 0 1".data) ≠ 0 := by
  have hsc : orientScore ("8/8/8/8/8/2k5/2P5/2K5 w - - 0 1".data) = -2 := by
    rw [orientScore_eq (by decide : wkRow _ = some 7) (by decide : bkRow _ = some 5)]
    norm_num
  exact ⟨by decide, by decide, hsc, by rw [hsc]; norm_num⟩

/-- C9 (amended): end-to-end, `8/8/8/8/8/2k5/2P5/2K5` is completed with
`" w - - 0 1"`, the heuristic finds the White king at row 7 and the Black
king at row 5 (score −2.0, hence normal, no rotation), castling inference
yields `-`, and the final string is `8/8/8/8/8/2k5/2P5/2K5 w - - 0 1`. -/
theorem end_to_end_amended :
    completeFen ("8/8/8/8/8/2k5/2P5/2K5".data) =
      ("8/8/8/8/8/2k5/2P5/2K5 w - - 0 1".data) ∧
    wkRow ("8/8/8/8/8/2k5/2P5/2K5 w - - 0 1".data) = some 7 ∧
    bkRow ("8/8/8/8/8/2k5/2P5/2K5 w - - 0 1".data) = some 5 ∧
    orientScore ("8/8/8/8/8/2k5/2P5/2K5 w - - 0 1".data) = -2 ∧
    detectFlipped ("8/8/8/8/8/2k5/2P5/2K5 w - - 0 1".data) = false ∧
    castField ("8/8/8/8/8/2k5/2P5/2K5 w - - 0 1".data) = ['-'] ∧
    pipelineFinal ("8/8/8/8/8/2k5/2P5/2K5".data) =
      ("8/8/8/8/8/2k5/2P5/2K5 w - - 0 1".data) := by
  have hw : wkRow ("8/8/8/8/8/2k5/2P5/2K5 w - - 0 1".data) = some 7 := by decide
  have hb : bkRow ("8/8/8/8/8/2k5/2P5/2K5 w - - 0 1".data) = some 5 := by decide
  have hsc : orientScore ("8/8/8/8/8/2k5/2P5/2K5 w - - 0 1".data) = -2 := by
    rw [orientScore_eq hw hb]
    norm_num
  have hflip : detectFlipped ("8/8/8/8/8/2k5/2P5/2K5 w - - 0 1".data) = false := by
    rw [detectFlipped_primary (by rw [hw]; rfl), hsc]
    norm_num
  have hfin : pipelineFinal ("8/8/8/8/8/2k5/2P5/2K5".data) =
      ("8/8/8/8/8/2k5/2P5/2K5 w - - 0 1".data) := by
    unfold pipelineFinal serverFen
    rw [(by decide : completeFen ("8/8/8/8/8/2k5/2P5/2K5".data) =
      ("8/8/8/8/8/2k5/2P5/2K5 w - - 0 1".data))]
    rw [(by decide : inferCastling ("8/8/8/8/8/2k5/2P5/2K5 w - - 0 1".data) =
      ("8/8/8/8/8/2k5/2P5/2K5 w - - 0 1".data))]
    unfold detectOrientation
    rw [hflip]
    decide
  exact ⟨by decide, hw, hb, hsc, hflip, by decide, hfin⟩

/-- C1: whenever at least one king is located, the orientation heuristic
decides flipped exactly when the king score exceeds 1.5; in particular the
placement with the White king in row 6 and the Black king in row 1 is
normal, and the one with the rows swapped is flipped. -/
theorem orientation_king_score :
    (∀ fen : List Char, wkRow fen ≠ none ∨ bkRow fen ≠ none →
      (detectFlipped fen = true ↔ orientScore fen > 3/2)) ∧
    detectFlipped ("8/1k6/8/8/8/8/1K6/8 w - - 0 1".data) = false ∧
    detectFlipped ("8/1K6/8/8/8/8/1k6/8 w - - 0 1".data) = true := by
  have main : ∀ fen : List Char, wkRow fen ≠ none ∨ bkRow fen ≠ none →
      (detectFlipped fen = true ↔ orientScore fen > 3/2) := by
    intro fen h
    have hcond : ((wkRow fen).isSome || (bkRow fen).isSome) = true := by
      rcases h with h | h <;> simp [Option.isSome_iff_ne_none, h]
    rw [detectFlipped_primary hcond]
    simp
  refine ⟨main, ?_, ?_⟩
  · have hw : wkRow ("8/1k6/8/8/8/8/1K6/8 w - - 0 1".data) = some 6 := by decide
    have hb : bkRow ("8/1k6/8/8/8/8/1K6/8 w - - 0 1".data) = some 1 := by decide
    rw [detectFlipped_primary (by rw [hw]; rfl), orientScore_eq hw hb]
    norm_num
  · have hw : wkRow ("8/1K6/8/8/8/8/1k6/8 w - - 0 1".data) = some 1 := by decide
    have hb : bkRow ("8/1K6/8/8/8/8/1k6/8 w - - 0 1".data) = some 6 := by decide
    rw [detectFlipped_primary (by rw [hw]; rfl), orientScore_eq hw hb]
    norm_num

/-- C1 witness: the score rule instantiated at the flipped example. -/
theorem orientation_king_score_witness :
    (wkRow ("8/1K6/8/8/8/8/1k6/8 w - - 0 1".data) ≠ none ∨
     bkRow ("8/1K6/8/8/8/8/1k6/8 w - - 0 1".data) ≠ none) ∧
    (detectFlipped ("8/1K6/8/8/8/8/1k6/8 w - - 0 1".data) = true ↔
     orientScore ("8/1K6/8/8/8/8/1k6/8 w - - 0 1".data) > 3/2) :=
  ⟨Or.inl (by decide),
   orientation_king_score.1 ("8/1K6/8/8/8/8/1k6/8 w - - 0 1".data) (Or.inl (by decide))⟩

theorem fracGuard (num den : Nat) (hle : num ≤ den) :
    ((num : ℚ) / (if den = 0 then 1 else (den : ℚ)) > 13/20) ↔
      (den ≠ 0 ∧ (num : ℚ) / (den : ℚ) > 13/20) := by
  by_cases hd : den = 0
  · have h0 : num = 0 := by omega
    subst hd
    subst h0
    norm_num
  · rw [if_neg hd]
    simp [hd]

/-- C6: with neither king located, the fallback declares flipped exactly
when White pieces are strictly more than 65% of the far half's pieces and
Black pieces strictly more than 65% of the near half's pieces; an empty
half (or either fraction failing the bar) gives normal. -/
theorem orientation_fallback_rule :
    ∀ fen : List Char, wkRow fen = none → bkRow fen = none →
      (detectFlipped fen = true ↔
        (let wTop := countUpper ((rowsOf fen).take 4).flatten
         let bTop := countLower ((rowsOf fen).take 4).flatten
         let wBot := countUpper ((rowsOf fen).drop 4).flatten
         let bBot := countLower ((rowsOf fen).drop 4).flatten
         (wTop + bTop ≠ 0 ∧ (wTop : ℚ) / ((wTop : ℚ) + (bTop : ℚ)) > 13/20) ∧
         (wBot + bBot ≠ 0 ∧ (bBot : ℚ) / ((wBot : ℚ) + (bBot : ℚ)) > 13/20))) := by
  intro fen hw hb
  rw [detectFlipped_fallback hw hb]
  unfold fallbackFlipped
  dsimp only
  rw [Bool.and_eq_true, decide_eq_true_eq, decide_eq_true_eq,
    fracGuard _ _ (Nat.le_add_right _ _), fracGuard _ _ (Nat.le_add_left _ _)]
  push_cast
  tauto

/-- C6 witness: the fallback rule instantiated at a kingless placement. -/
theorem orientation_fallback_rule_witness :
    wkRow ("8/8/8/8/8/8/8/8 w - - 0 1".data) = none ∧
    bkRow ("8/8/8/8/8/8/8/8 w - - 0 1".data) = none ∧
    (detectFlipped ("8/8/8/8/8/8/8/8 w - - 0 1".data) = true ↔
      (let wTop := countUpper ((rowsOf ("8/8/8/8/8/8/8/8 w - - 0 1".data)).take 4).flatten
       let bTop := countLower ((rowsOf ("8/8/8/8/8/8/8/8 w - - 0 1".data)).take 4).flatten
       let wBot := countUpper ((rowsOf ("8/8/8/8/8/8/8/8 w - - 0 1".data)).drop 4).flatten
       let bBot := countLower ((rowsOf ("8/8/8/8/8/8/8/8 w - - 0 1".data)).drop 4).flatten
       (wTop + bTop ≠ 0 ∧ (wTop : ℚ) / ((wTop : ℚ) + (bTop : ℚ)) > 13/20) ∧
       (wBot + bBot ≠ 0 ∧ (bBot : ℚ) / ((wBot : ℚ) + (bBot : ℚ)) > 13/20))) :=
  ⟨by decide, by decide,
   orientation_fallback_rule ("8/8/8/8/8/8/8/8 w - - 0 1".data) (by decide) (by decide)⟩

/-- C5 counterexample: at gray = 100, background = 50 the code's value
(clamp after blending) is 255, while the claimed clamp-before-blend
formula gives 177.5. -/
theorem bleed_clamp_order_cex :
    normBlend 100 50 = 255 ∧ specNormBlend 100 50 = 355/2 ∧
    normBlend 100 50 ≠ specNormBlend 100 50 := by
  have hn : (((100 : ℚ) + 1) / (50 + 1)) * 255 = 505 := by norm_num
  have h1 : normBlend 100 50 = 255 := by
    unfold normBlend
    rw [hn]
    rw [max_eq_right (by norm_num), min_eq_left (by norm_num)]
  have h2 : specNormBlend 100 50 = 355/2 := by
    unfold specNormBlend
    rw [hn]
    rw [max_eq_right (by norm_num), min_eq_left (by norm_num)]
    norm_num
  exact ⟨h1, h2, by rw [h1, h2]; norm_num⟩

/-- C5 (amended): the code blends first and clamps the blended value,
`output = min(255, max(0, 0.5·normalized + 0.5·gray))`; this agrees with
the claimed clamp-before-blend formula whenever the normalized value is at
most 255 (given 0 ≤ gray ≤ 255 and 0 ≤ background). -/
theorem bleed_clamp_after_blend (gray bg : ℚ) (h0 : 0 ≤ gray) (h255 : gray ≤ 255)
    (hbg : 0 ≤ bg) :
    normBlend gray bg =
      min 255 ((((gray + 1) / (bg + 1)) * 255) * (1/2) + gray * (1/2)) ∧
    (((gray + 1) / (bg + 1)) * 255 ≤ 255 →
      normBlend gray bg = specNormBlend gray bg) := by
  have hnn : 0 ≤ ((gray + 1) / (bg + 1)) * 255 := by positivity
  constructor
  · unfold normBlend
    rw [max_eq_right (by nlinarith)]
    norm_num
  · intro hle
    unfold normBlend specNormBlend
    rw [max_eq_right (by nlinarith), min_eq_right (by nlinarith),
      max_eq_right hnn, min_eq_right hle]
    ring

/-- C5 witness: the amended clamp-after-blend rule at gray = 0, bg = 0. -/
theorem bleed_clamp_after_blend_witness :
    ((0 : ℚ) ≤ 0 ∧ (0 : ℚ) ≤ 255 ∧ (0 : ℚ) ≤ 0) ∧
    (normBlend 0 0 =
      min 255 ((((0 : ℚ) + 1) / ((0 : ℚ) + 1)) * 255 * (1/2) + 0 * (1/2)) ∧
     ((((0 : ℚ) + 1) / ((0 : ℚ) + 1)) * 255 ≤ 255 →
      normBlend 0 0 = specNormBlend 0 0)) :=
  ⟨⟨le_refl 0, by norm_num, le_refl 0⟩,
   bleed_clamp_after_blend 0 0 (le_refl 0) (by norm_num) (le_refl 0)⟩

theorem clamp255_nonneg (z : ℤ) : 0 ≤ clamp255 z :=
  le_min (by norm_num) (le_max_left 0 z)

theorem clamp255_le (z : ℤ) : clamp255 z ≤ 255 := min_le_left _ _

/-- C7: every output pixel of the bleed-removal filter has equal red,
green and blue channels, channel values in [0,255], and alpha 255 — for
any blur functions and any input data. -/
theorem bleed_output_channels (blurA blurB : (Nat → ℚ) → Nat → ℚ) (data : Nat → ℚ)
    (i : Nat) :
    removeBleedingOut blurA blurB data (4*i) = removeBleedingOut blurA blurB data (4*i + 1) ∧
    removeBleedingOut blurA blurB data (4*i + 1) = removeBleedingOut blurA blurB data (4*i + 2) ∧
    0 ≤ removeBleedingOut blurA blurB data (4*i) ∧
    removeBleedingOut blurA blurB data (4*i) ≤ 255 ∧
    removeBleedingOut blurA blurB data (4*i + 3) = 255 := by
  have e0 : (4*i) % 4 = 0 := by omega
  have e1 : (4*i + 1) % 4 = 1 := by omega
  have e2 : (4*i + 2) % 4 = 2 := by omega
  have e3 : (4*i + 3) % 4 = 3 := by omega
  have d0 : (4*i) / 4 = i := by omega
  have d1 : (4*i + 1) / 4 = i := by omega
  have d2 : (4*i + 2) / 4 = i := by omega
  unfold removeBleedingOut
  simp only [e0, e1, e2, e3, d0, d1, d2]
  norm_num
  exact ⟨clamp255_nonneg _, clamp255_le _⟩

/-- C8: the Rotation Transform is an involution on placements, and one
application preserves the multiset of pieces (the flattened grid is a
permutation of the original). -/
theorem rotation_involution {α : Type} (p : List (List α)) :
    rotatePlacement (rotatePlacement p) = p ∧
    (rotatePlacement p).flatten.Perm p.flatten := by
  constructor
  · simp [rotatePlacement, List.map_reverse, List.map_map, Function.comp]
  · induction p with
    | nil => simp [rotatePlacement]
    | cons a ps ih =>
      have h : rotatePlacement (a :: ps) = rotatePlacement ps ++ [a.reverse] := by
        unfold rotatePlacement
        simp
      rw [h, List.flatten_append]
      simp only [List.flatten_cons, List.flatten_nil, List.append_nil, List.flatten]
      exact ((ih.append_right _).trans List.perm_append_comm).trans
        (a.reverse_perm.append_right _)

end ChessEval
